import Mathlib

/-!
Verification of the trajectory post-processing pipeline in
src/post_process.py (bee-tracking).

Modelling conventions:
* A pandas DataFrame indexed by trajectory id is modelled as a Lean
  list of rows in dataframe row order; the index is the first field of
  the row structure.
* Python floats are modelled as exact numbers: base table columns
  (t, x, y) are rationals, derived kinematic quantities (angle,
  speed, rotation), which involve sqrt and arctan2, are real numbers;
  NaN ("no value") entries of derived columns are modelled by Option.
* Python exceptions (assertion failures, pandas errors such as
  concatenating an empty list of frames or assigning a wrongly sized
  column) are modelled with Except/Option return types.
-/

/-- One row of a trajectory table: index column `traj` and data columns
`t`, `x`, `y` (as produced by parse_traj_file / combine_traj_files). -/
structure Row where
  traj : Int
  t : ℚ
  x : ℚ
  y : ℚ
  deriving DecidableEq, Repr

/-- `pandas.Index.unique()`: the distinct values of a list in order of first
appearance. -/
def uniqueIdx : List Int → List Int
  | [] => []
  | a :: l => a :: uniqueIdx (l.filter (fun b => b ≠ a))
termination_by l => l.length
decreasing_by
  simpa using Nat.lt_succ_of_le (List.length_filter_le _ _)

theorem mem_uniqueIdx (l : List Int) (b : Int) : b ∈ uniqueIdx l ↔ b ∈ l := by
  induction l using uniqueIdx.induct with
  | case1 => simp [uniqueIdx]
  | case2 a l ih =>
    simp only [uniqueIdx, List.mem_cons, ih, List.mem_filter]
    constructor
    · rintro (rfl | ⟨h1, _⟩)
      · exact Or.inl rfl
      · exact Or.inr h1
    · rintro (rfl | h1)
      · exact Or.inl rfl
      · by_cases hba : b = a
        · exact Or.inl hba
        · exact Or.inr ⟨h1, by simpa using hba⟩

theorem nodup_uniqueIdx (l : List Int) : (uniqueIdx l).Nodup := by
  induction l using uniqueIdx.induct with
  | case1 => simp [uniqueIdx]
  | case2 a l ih =>
    simp only [uniqueIdx, List.nodup_cons]
    refine ⟨?_, ih⟩
    intro hmem
    rcases (mem_uniqueIdx _ _).1 hmem with h
    simp at h

/-- Python list slicing `l[ts:-te]` for `te > 0` (used by filter_traj's
trimming step): drop the first `ts` and the last `te` elements, clamped
at the empty list. -/
def pySlice (ts te : Nat) (l : List Row) : List Row :=
  (l.drop ts).take (l.length - te - ts)

/-- `len(df1.loc[i])` on a traj-indexed frame with columns `t`, `x`, `y`:
pandas `.loc` with a scalar label that occurs exactly once in the index
dimension-reduces to a Series of the row's columns, so `len` is the
column count 3; for a label occurring two or more times it returns a
sub-frame and `len` is the row count. -/
def pandasLen (df1 : List Row) (i : Int) : Nat :=
  if (df1.filter (fun r => r.traj = i)).length = 1 then 3
  else (df1.filter (fun r => r.traj = i)).length

/-- Whether some trajectory label occurs exactly once in the table — the
inputs on which pandas' scalar-label `.loc` dimension-reduces to a
Series. -/
def hasSingleton (df : List Row) : Bool :=
  (uniqueIdx (df.map Row.traj)).any
    (fun i => (df.filter (fun r => r.traj = i)).length = 1)

/-- Failure modes of `filter_traj`: the precondition assert at entry; the
`pd.concat` of an empty list of per-trajectory slices raised by the
trimming branches when no trajectory survives; and the malformed frame a
trimming branch builds when a surviving trajectory has exactly one row —
`df1.loc[i]` is then a Series of the three columns, the positional slice
cuts columns instead of rows, and `pd.concat` merges that column
fragment with the row-frames of the other trajectories, producing an
object that is not a trajectory table (its column set is polluted by
trajectory labels); that outcome is outside the Row-table data model and
is represented by this token. -/
inductive FilterErr where
  | invalidConfiguration : FilterErr
  | emptyConcat : FilterErr
  | malformedTrimFrame : FilterErr
  deriving DecidableEq, Repr

/-- Shallow embedding of `filter_traj` (src/post_process.py:122-166).

`assert trim_start_frames + trim_end_frames < min_length`, then drop all
rows with `x <= 0` or `y <= 0`, then keep only trajectories `i` with
`len(df1.loc[i]) >= min_length` — which, per `pandasLen`, compares the
column count 3 rather than the row count when trajectory `i` has exactly
one surviving row.  `df1.loc[good_length_idxs]` (a list indexer, which
never dimension-reduces) concatenates the rows of each surviving label
in label-list order.  Finally each surviving trajectory is trimmed:
`df1.loc[i][trim_start_frames:-trim_end_frames]` when
`trim_end_frames > 0`, `df1.loc[i][trim_start_frames:]` when only
`trim_start_frames > 0`, and no trimming otherwise; a single-row label
inside a trimming branch yields the malformed concatenation described at
`FilterErr.malformedTrimFrame`. -/
def filter_traj (df : List Row) (min_length trim_start_frames trim_end_frames : Nat) :
    Except FilterErr (List Row) :=
  if ¬ (trim_start_frames + trim_end_frames < min_length) then
    .error .invalidConfiguration
  else
    let df1 := df.filter (fun r => decide (0 < r.x) && decide (0 < r.y))
    let good := (uniqueIdx (df1.map Row.traj)).filter
      (fun i => min_length ≤ pandasLen df1 i)
    let df1b := good.flatMap (fun i => df1.filter (fun r => r.traj = i))
    if 0 < trim_end_frames then
      if uniqueIdx (df1b.map Row.traj) = [] then .error .emptyConcat
      else if hasSingleton df1b then .error .malformedTrimFrame
      else .ok ((uniqueIdx (df1b.map Row.traj)).flatMap
        (fun i => pySlice trim_start_frames trim_end_frames
          (df1b.filter (fun r => r.traj = i))))
    else if 0 < trim_start_frames then
      if uniqueIdx (df1b.map Row.traj) = [] then .error .emptyConcat
      else if hasSingleton df1b then .error .malformedTrimFrame
      else .ok ((uniqueIdx (df1b.map Row.traj)).flatMap
        (fun i => (df1b.filter (fun r => r.traj = i)).drop trim_start_frames))
    else
      .ok df1b

theorem group_rows (df1 : List Row) (i : Int) :
    ∀ r ∈ df1.filter (fun r => r.traj = i), r.traj = i := by
  intro r hr
  simpa using (List.mem_filter.1 hr).2

theorem filter_flatMap_groups (idxs : List Int) (f : Int → List Row)
    (hf : ∀ i, ∀ r ∈ f i, r.traj = i) (hnd : idxs.Nodup) (id : Int) :
    ((idxs.flatMap f).filter (fun r => r.traj = id)) =
      if id ∈ idxs then f id else [] := by
  induction idxs with
  | nil => simp
  | cons a rest ih =>
    have hnd' := List.nodup_cons.1 hnd
    simp only [List.flatMap_cons, List.filter_append]
    by_cases hid : id = a
    · subst hid
      rw [if_pos (List.mem_cons_self _ _)]
      have h1 : (f id).filter (fun r => r.traj = id) = f id := by
        rw [List.filter_eq_self]
        intro r hr
        simpa using hf id r hr
      have h2 : ((rest.flatMap f).filter (fun r => r.traj = id)) = [] := by
        rw [ih hnd'.2, if_neg hnd'.1]
      rw [h1, h2, List.append_nil]
    · have h1 : (f a).filter (fun r => r.traj = id) = [] := by
        rw [List.filter_eq_nil_iff]
        intro r hr
        have := hf a r hr
        simp [this, hid]
        intro hc
        exact hid hc.symm
      rw [h1, List.nil_append, ih hnd'.2]
      by_cases hmem : id ∈ rest <;> simp [hmem, hid]

theorem mem_map_traj_iff (l : List Row) (id : Int) :
    id ∈ l.map Row.traj ↔ l.filter (fun r => r.traj = id) ≠ [] := by
  rw [Ne, List.filter_eq_nil_iff]
  push_neg
  simp [List.mem_map, eq_comm]

theorem pySlice_length (ts te : Nat) (l : List Row) :
    (pySlice ts te l).length = l.length - te - ts := by
  simp [pySlice, List.length_take, List.length_drop]
  omega

/-- C6: `filter_traj` fails with invalid-configuration whenever
`trim_start_frames + trim_end_frames >= min_length`, uniformly in the input
table (the `assert` is the first statement of the function, before any
sample is removed or trajectory evaluated). -/
theorem filter_traj_invalid_configuration (df : List Row) (m ts te : Nat)
    (h : m ≤ ts + te) :
    filter_traj df m ts te = .error .invalidConfiguration := by
  unfold filter_traj
  rw [if_pos]
  omega

theorem flatMap_subset_base (idxs : List Int) (f : Int → List Row)
    (base : List Row) (hsub : ∀ i, ∀ r ∈ f i, r ∈ base) :
    ∀ r ∈ idxs.flatMap f, r ∈ base := by
  intro r hr
  rcases List.mem_flatMap.1 hr with ⟨i, _, hri⟩
  exact hsub i r hri

/-- A length-5 single-trajectory table with one sentinel sample at (0, 0)
(the filter test case of the specification). -/
def ex5 : List Row := [⟨7,0,1,1⟩,⟨7,1,2,1⟩,⟨7,2,0,0⟩,⟨7,3,2,2⟩,⟨7,4,3,2⟩]

theorem filter_traj_invalid_configuration_witness :
    filter_traj ex5 3 2 2 = .error .invalidConfiguration :=
  filter_traj_invalid_configuration ex5 3 2 2 (by norm_num)

/-- A table whose only trajectory has a single (positive) sample. -/
def exShort : List Row := [⟨5, 0, 1, 1⟩]

/-- C3 (code evaluated at the failing input): with `min_length = 3` and no
trimming, the single-sample trajectory of `exShort` is retained —
`len(df1.loc[5])` dimension-reduces to the column count 3, which passes
the `>= min_length` check — so the output holds a trajectory with one
sample, below the claimed bound `min_length - trim_start - trim_end = 3`. -/
theorem filter_traj_singleton_retained :
    filter_traj exShort 3 0 0 = .ok exShort ∧
    (exShort.filter (fun r => r.traj = 5)).length = 1 := by
  constructor
  · norm_num [filter_traj, exShort, uniqueIdx, pandasLen, List.filter]
  · norm_num [exShort, List.filter]

/-- A trajectory of three samples of which two are the (0, 0) sentinel. -/
def exC7 : List Row := [⟨9,0,0,0⟩, ⟨9,1,1,1⟩, ⟨9,2,0,0⟩]

/-- C7 (code evaluated at the failing input): the sentinel samples are
dropped first (only the positive row survives), but the minimum-length
check is then applied to `len(df1.loc[9])` — the column count 3 for this
now single-row label, not the remaining sample count 1 — so with
`min_length = 3` the trajectory is retained although only one sample
remains after the removal. -/
theorem filter_traj_length_check_not_count :
    filter_traj exC7 3 0 0 = .ok [⟨9,1,1,1⟩] := by
  norm_num [filter_traj, exC7, uniqueIdx, pandasLen, List.filter]

/-- One recording of a group, as consumed by `combine_traj_files`: the
`start_time` extracted from the filename metadata (modelled in absolute
seconds, so that a datetime difference `total_seconds()` becomes a plain
subtraction) together with the parsed per-recording long table. -/
structure Recording where
  start_time : ℚ
  rows : List Row
  deriving DecidableEq, Repr

/-- The time/id adjustment applied to one recording's table inside the
loop of `combine_traj_files`: `df['t'] += (dtime - first_time).total_seconds()`
and `df['traj'] += off` (where the caller passes `off = traj_max + 1`). -/
def adjustRec (ft : ℚ) (off : Int) (rec : Recording) : List Row :=
  rec.rows.map (fun r => ⟨r.traj + off, r.t + (rec.start_time - ft), r.x, r.y⟩)

/-- The loop of `combine_traj_files` (src/post_process.py:94-117), carrying
the running `traj_max` accumulator. `int(df_current['traj'].max())` on an
empty table is a Python error (`int(nan)`), modelled as `none`. -/
def combine_aux (ft : ℚ) (m : Int) : List Recording → Option (List Row)
  | [] => some []
  | rec :: rest =>
    let seg := adjustRec ft (m + 1) rec
    match (seg.map Row.traj).max? with
    | none => none
    | some mx => (combine_aux ft mx rest).map (fun tl => seg ++ tl)

/-- Shallow embedding of `combine_traj_files` (src/post_process.py:84-119):
`first_time` is the metadata time of the first file, `traj_max` starts at
-1, each recording's times are shifted by the elapsed seconds since the
first recording and its trajectory ids by `traj_max + 1`, and the adjusted
tables are concatenated.  `pd.concat` of an empty list raises, modelled
as `none` on the empty input. -/
def combine_traj_files : List Recording → Option (List Row)
  | [] => none
  | rec :: rest => combine_aux rec.start_time (-1) (rec :: rest)

/-- Claim-side description of the stitching loop, following the
specification's words: the running ceiling is "the maximum post-offset
trajectory_id of all previous recordings (initially -1)" (a fold of `max`
over every id emitted so far), and each recording is offset by
`id_ceiling + 1` and time-shifted by its elapsed start time. -/
def stitchSpecAux (ft : ℚ) (ceil : Int) : List Recording → List (List Row)
  | [] => []
  | rec :: rest =>
    let seg := adjustRec ft (ceil + 1) rec
    seg :: stitchSpecAux ft ((seg.map Row.traj).foldl max ceil) rest

/-- Claim-side stitching: per-recording adjusted segments per the
specification's description (time base = first recording's start time,
id ceiling initially -1). -/
def stitch_spec : List Recording → List (List Row)
  | [] => []
  | rec :: rest => stitchSpecAux rec.start_time (-1) (rec :: rest)

theorem foldl_max_of_le (l : List Int) (c : Int) (h : ∀ a ∈ l, a ≤ c) :
    l.foldl max c = c := by
  induction l with
  | nil => rfl
  | cons a rest ih =>
    have ha : a ≤ c := h a (by simp)
    simp only [List.foldl_cons, max_eq_left ha]
    exact ih (fun b hb => h b (by simp [hb]))

theorem foldl_max_eq (l : List Int) (m mx : Int)
    (hmem : mx ∈ l) (hub : ∀ a ∈ l, a ≤ mx) (hm : m ≤ mx) :
    l.foldl max m = mx := by
  induction l generalizing m with
  | nil => simp at hmem
  | cons a rest ih =>
    simp only [List.foldl_cons]
    rcases List.mem_cons.1 hmem with rfl | hmem'
    · rw [max_eq_right hm]
      by_cases hmx : mx ∈ rest
      · exact ih mx hmx (fun b hb => hub b (List.mem_cons_of_mem _ hb)) le_rfl
      · exact foldl_max_of_le rest mx (fun b hb => hub b (List.mem_cons_of_mem _ hb))
    · have ha : a ≤ mx := hub a (by simp)
      have hmax : max m a ≤ mx := max_le hm ha
      exact ih (max m a) hmem' (fun b hb => hub b (List.mem_cons_of_mem _ hb)) hmax

theorem max?_int_spec (l : List Int) (mx : Int) (h : l.max? = some mx) :
    mx ∈ l ∧ ∀ a ∈ l, a ≤ mx := by
  haveI : Std.Antisymm (fun x1 x2 : Int => x1 ≤ x2) :=
    ⟨fun h1 h2 => le_antisymm h1 h2⟩
  rw [List.max?_eq_some_iff (fun a => le_refl a) (fun a b => max_choice a b)
    (fun a b c => max_le_iff)] at h
  exact h

theorem adjustRec_traj (ft : ℚ) (off : Int) (rec : Recording) :
    ∀ r ∈ adjustRec ft off rec, ∃ r0 ∈ rec.rows, r.traj = r0.traj + off := by
  intro r hr
  rcases List.mem_map.1 hr with ⟨r0, hr0, rfl⟩
  exact ⟨r0, hr0, rfl⟩

theorem combine_aux_spec (recs : List Recording) (ft : ℚ) :
    ∀ (m : Int) (out : List Row),
    (∀ rec ∈ recs, ∀ r ∈ rec.rows, 0 ≤ r.traj) →
    combine_aux ft m recs = some out →
    out = (stitchSpecAux ft m recs).flatten
    ∧ (∀ r ∈ out, m < r.traj)
    ∧ (stitchSpecAux ft m recs).Pairwise
        (fun s1 s2 => ∀ a ∈ s1.map Row.traj, ∀ b ∈ s2.map Row.traj, a < b) := by
  induction recs with
  | nil =>
    intro m out _ hout
    simp only [combine_aux, Option.some.injEq] at hout
    subst hout
    simp [stitchSpecAux]
  | cons rec rest ih =>
    intro m out hnn hout
    simp only [combine_aux] at hout
    set seg := adjustRec ft (m + 1) rec with hseg
    have hsegnn : ∀ r ∈ seg, m + 1 ≤ r.traj := by
      intro r hr
      rcases adjustRec_traj ft (m + 1) rec r hr with ⟨r0, hr0, heq⟩
      have := hnn rec (by simp) r0 hr0
      omega
    cases hmx : (seg.map Row.traj).max? with
    | none => rw [hmx] at hout; simp at hout
    | some mx =>
      rw [hmx] at hout
      simp only [Option.map_eq_some'] at hout
      rcases hout with ⟨tl, htl, hout⟩
      obtain ⟨hmem, hub⟩ := max?_int_spec _ mx hmx
      rcases List.mem_map.1 hmem with ⟨rmx, hrmx, hrtraj⟩
      have hmx_ge : m + 1 ≤ mx := hrtraj ▸ hsegnn rmx hrmx
      have hrest_nn : ∀ rc ∈ rest, ∀ r ∈ rc.rows, 0 ≤ r.traj :=
        fun rc hrc => hnn rc (List.mem_cons_of_mem _ hrc)
      obtain ⟨ih1, ih2, ih3⟩ := ih mx tl hrest_nn htl
      have hceil : (seg.map Row.traj).foldl max m = mx := by
        apply foldl_max_eq _ m mx hmem hub
        omega
      have hspec : stitchSpecAux ft m (rec :: rest) =
          seg :: stitchSpecAux ft mx rest := by
        simp only [stitchSpecAux]
        rw [← hseg, hceil]
      refine ⟨?_, ?_, ?_⟩
      · rw [hspec, List.flatten_cons, ← ih1, ← hout]
      · intro r hr
        rw [← hout] at hr
        rcases List.mem_append.1 hr with hr1 | hr2
        · have := hsegnn r hr1
          omega
        · have := ih2 r hr2
          omega
      · rw [hspec]
        refine List.Pairwise.cons ?_ ih3
        intro s2 hs2 a ha b hb
        rcases List.mem_map.1 ha with ⟨ra, hra, rfl⟩
        rcases List.mem_map.1 hb with ⟨rb, hrb, rfl⟩
        have hb_tl : rb ∈ tl := by
          rw [ih1]
          exact List.mem_flatten.2 ⟨s2, hs2, hrb⟩
        have h1 : ra.traj ≤ mx := hub _ (List.mem_map.2 ⟨ra, hra, rfl⟩)
        have h2 : mx < rb.traj := ih2 rb hb_tl
        omega

/-- C2: stitching an ordered sequence of per-recording tables (all local
trajectory ids nonnegative, as produced by the tracker) yields the table
described by the specification: each recording's times are shifted by its
start-time difference to the first recording, each recording's ids are
offset by one more than the running maximum post-offset id of all
previous recordings (initially -1), and consequently trajectory ids of a
later recording are strictly greater than those of every earlier
recording (so ids never collide across recordings of a group). -/
theorem combine_traj_files_stitching (recs : List Recording) (out : List Row)
    (hsorted : recs.Chain' (fun a b => a.start_time ≤ b.start_time))
    (hnn : ∀ rec ∈ recs, ∀ r ∈ rec.rows, 0 ≤ r.traj)
    (hout : combine_traj_files recs = some out) :
    out = (stitch_spec recs).flatten ∧
    (stitch_spec recs).Pairwise
      (fun s1 s2 => ∀ a ∈ s1.map Row.traj, ∀ b ∈ s2.map Row.traj, a < b) := by
  cases recs with
  | nil => simp [combine_traj_files] at hout
  | cons rec rest =>
    simp only [combine_traj_files] at hout
    obtain ⟨h1, -, h3⟩ :=
      combine_aux_spec (rec :: rest) rec.start_time (-1) out hnn hout
    constructor
    · simpa [stitch_spec] using h1
    · simpa [stitch_spec] using h3

/-- Two synthetic single-sample recordings with start times 0 s and 3600 s
(the stitching test case of the specification). -/
def exRecs : List Recording := [⟨0, [⟨0,0,1,1⟩]⟩, ⟨3600, [⟨0,5,2,2⟩]⟩]

theorem combine_traj_files_stitching_witness :
    ([⟨0,0,1,1⟩, ⟨1,3605,2,2⟩] : List Row) = (stitch_spec exRecs).flatten ∧
    (stitch_spec exRecs).Pairwise
      (fun s1 s2 => ∀ a ∈ s1.map Row.traj, ∀ b ∈ s2.map Row.traj, a < b) :=
  combine_traj_files_stitching exRecs _
    (by norm_num [exRecs, List.chain'_cons])
    (by norm_num [exRecs])
    (by norm_num [exRecs, combine_traj_files, combine_aux, adjustRec, List.max?])

/-- `df.reset_index().set_index('t').sort_index()`: the table re-sorted by
time.  pandas' quicksort is unstable; every property proved below is
independent of the order among rows with equal `t` (the pair distance is
symmetric in the two rows of a pair), so a merge sort is used. -/
def sortByT (df : List Row) : List Row :=
  df.mergeSort (fun a b => decide (a.t ≤ b.t))

/-- `dft.index[1:] == dft.index[:-1]`: the sub-list of time values at the
positions (from 1 on) whose time equals the previous row's time. -/
def adjEq : List ℚ → List ℚ
  | a :: b :: rest => (if b = a then [b] else []) ++ adjEq (b :: rest)
  | _ => []

/-- The index of the pair-distance frame: times with a directly preceding
equal time in the sorted table. -/
def pairedTimes (df : List Row) : List ℚ := adjEq ((sortByT df).map Row.t)

mutual

/-- `l.iloc[::2]`: elements at even positions. -/
def evens : List Row → List Row
  | [] => []
  | a :: l => a :: odds l

/-- `l.iloc[1::2]`: elements at odd positions. -/
def odds : List Row → List Row
  | [] => []
  | _ :: l => evens l

end

/-- Failure modes of `calculate_distances`: the `assert len(ddf.index) > 0`
(no qualifying simultaneous timestamps) and the
`assert not ddf.index.has_duplicates` (some timestamp carried by more
than two rows). -/
inductive DistErr where
  | noPairedTimestamps : DistErr
  | duplicatePairedTimestamps : DistErr
  deriving DecidableEq, Repr

/-- The squared-distance table of `calculate_distances`: re-select all
rows of each paired time (`dft.loc[ddf.index]`, which concatenates, per
paired time in order, every sorted row carrying that time), then compute
the squared coordinate differences of the odd-position rows against the
even-position rows (`dft.iloc[1::2] - dft.iloc[::2]`, squared and
summed), indexed by the paired times. -/
def pairedSq (df : List Row) : List (ℚ × ℚ) :=
  let dft := sortByT df
  let paired := pairedTimes df
  let sel := paired.flatMap (fun tv => dft.filter (fun r => r.t = tv))
  paired.zip (((odds sel).zip (evens sel)).map
    (fun pr => (pr.1.x - pr.2.x) ^ 2 + (pr.1.y - pr.2.y) ^ 2))

/-- The discrete skeleton of `calculate_distances`
(src/post_process.py:281-306): sort by `t`, take the paired times, check
the two asserts (`assert len(ddf.index) > 0` and
`assert not ddf.index.has_duplicates`, in that order), then produce the
squared-distance table. -/
def calculate_distances_sq (df : List Row) : Except DistErr (List (ℚ × ℚ)) :=
  if pairedTimes df = [] then .error .noPairedTimestamps
  else if ¬ (pairedTimes df).Nodup then .error .duplicatePairedTimestamps
  else .ok (pairedSq df)

/-- Shallow embedding of `calculate_distances` (src/post_process.py:281-306):
`ddf.d = np.sqrt(sq_diff_coords[:, 0] + sq_diff_coords[:, 1])` applied to
the squared differences of `calculate_distances_sq`; the result is the
pair-distance frame as a list of `(t, d)` rows. -/
noncomputable def calculate_distances (df : List Row) : Except DistErr (List (ℚ × ℝ)) :=
  (calculate_distances_sq df).map (fun l => l.map (fun pr => (pr.1, Real.sqrt ↑pr.2)))

theorem count_cons_eq (tv c : ℚ) (l : List ℚ) :
    (c :: l).count tv = l.count tv + if tv = c then 1 else 0 := by
  rw [List.count_cons]
  by_cases h : tv = c
  · simp [h]
  · simp [h]
    exact fun hh => h hh.symm

theorem adjEq_count (ts : List ℚ) (hs : ts.Pairwise (fun a b => a ≤ b)) (tv : ℚ) :
    (adjEq ts).count tv = ts.count tv - 1 := by
  induction ts with
  | nil => simp [adjEq]
  | cons a rest ih =>
    cases rest with
    | nil =>
      simp only [adjEq, List.count_nil, count_cons_eq]
      by_cases h : tv = a <;> simp [h]
    | cons b rest2 =>
      have hpw := List.pairwise_cons.1 hs
      have hab : a ≤ b := hpw.1 b (by simp)
      have ih2 := ih hpw.2
      simp only [adjEq]
      by_cases hba : b = a
      · rw [if_pos hba, List.count_append, ih2]
        simp only [count_cons_eq, List.count_nil]
        by_cases htv : tv = b
        · have hta : tv = a := htv.trans hba
          rw [if_pos htv, if_pos hta]
          omega
        · have hta : ¬ tv = a := fun h => htv (h.trans hba.symm)
          rw [if_neg htv, if_neg hta]
          omega
      · rw [if_neg hba, List.nil_append, ih2]
        simp only [count_cons_eq, List.count_nil]
        by_cases hta : tv = a
        · have htb : ¬ tv = b := fun h => hba (h.symm.trans hta)
          have h0 : rest2.count tv = 0 := by
            rw [List.count_eq_zero]
            intro hmem
            have h1 : b ≤ tv := (List.pairwise_cons.1 hpw.2).1 tv hmem
            have h2 : tv ≤ b := by
              rw [hta]
              exact hab
            exact htb (le_antisymm h2 h1)
          rw [if_neg htb, if_pos hta, h0]
        · rw [if_neg hta]
          simp

theorem sortByT_perm (df : List Row) : (sortByT df).Perm df :=
  List.mergeSort_perm df _

theorem sortByT_sorted_times (df : List Row) :
    ((sortByT df).map Row.t).Pairwise (fun a b => a ≤ b) := by
  have hs := @List.sorted_mergeSort Row (fun a b => decide (a.t ≤ b.t))
    (fun a b c hab hbc => by
      simp only [decide_eq_true_eq] at hab hbc ⊢
      exact le_trans hab hbc)
    (fun a b => by
      simp only [Bool.or_eq_true, decide_eq_true_eq]
      exact le_total a.t b.t)
    df
  rw [List.pairwise_map]
  exact hs.imp (fun h => by simpa using h)

theorem filter_t_length_eq_count (l : List Row) (tv : ℚ) :
    (l.filter (fun r => r.t = tv)).length = (l.map Row.t).count tv := by
  rw [← List.countP_eq_length_filter, List.count_eq_countP, List.countP_map]
  apply List.countP_congr
  intro r _
  by_cases h : r.t = tv <;> simp [h, Function.comp]

theorem times_count_eq (df : List Row) (tv : ℚ) :
    ((sortByT df).map Row.t).count tv = (df.map Row.t).count tv :=
  ((sortByT_perm df).map Row.t).count_eq tv

theorem pairedTimes_count (df : List Row) (tv : ℚ) :
    (pairedTimes df).count tv = (df.map Row.t).count tv - 1 := by
  unfold pairedTimes
  rw [adjEq_count _ (sortByT_sorted_times df) tv, times_count_eq]

theorem pairedTimes_mem_iff (df : List Row) (tv : ℚ) :
    tv ∈ pairedTimes df ↔ 2 ≤ (df.map Row.t).count tv := by
  rw [← List.count_pos_iff, pairedTimes_count]
  omega

/-- C5: the pair-separation computation fails with the
no-paired-timestamps assertion exactly when no timestamp is carried by
two (or more) samples of its input, and on that failure no pair-distance
table is produced (the error carries no table). -/
theorem calculate_distances_no_pairing_iff (df : List Row) :
    calculate_distances df = .error .noPairedTimestamps ↔
      ¬ ∃ tv : ℚ, 2 ≤ (df.filter (fun r => r.t = tv)).length := by
  have herr : calculate_distances df = .error DistErr.noPairedTimestamps ↔
      calculate_distances_sq df = .error DistErr.noPairedTimestamps := by
    unfold calculate_distances
    cases calculate_distances_sq df <;> simp [Except.map]
  have h1 : calculate_distances_sq df = .error DistErr.noPairedTimestamps ↔
      pairedTimes df = [] := by
    unfold calculate_distances_sq
    by_cases hp : pairedTimes df = []
    · simp [hp]
    · simp only [hp, if_false, if_neg]
      by_cases hd : (pairedTimes df).Nodup <;> simp [hp, hd]
  rw [herr, h1]
  constructor
  · rintro hemp ⟨tv, htv⟩
    rw [filter_t_length_eq_count] at htv
    have hmem : tv ∈ pairedTimes df := (pairedTimes_mem_iff df tv).2 htv
    rw [hemp] at hmem
    simp at hmem
  · intro hno
    by_contra hne
    rcases List.exists_mem_of_ne_nil _ hne with ⟨tv, hmem⟩
    exact hno ⟨tv, by
      rw [filter_t_length_eq_count]
      exact (pairedTimes_mem_iff df tv).1 hmem⟩

theorem evens_cons (a : Row) (l : List Row) : evens (a :: l) = a :: odds l := by
  simp [evens]

theorem odds_cons (a : Row) (l : List Row) : odds (a :: l) = evens l := by
  simp [odds]

theorem paired_sel_forall2 (f : ℚ → List Row) (ts : List ℚ)
    (hall : ∀ tv ∈ ts, ∃ a b, f tv = [a, b]) :
    List.Forall₂ (fun tv pr => f tv = [pr.2, pr.1])
      ts ((odds (ts.flatMap f)).zip (evens (ts.flatMap f))) := by
  induction ts with
  | nil => simp [odds, evens]
  | cons tv ts2 ih =>
    rcases hall tv (by simp) with ⟨a, b, hf⟩
    have hrest := ih (fun u hu => hall u (List.mem_cons_of_mem _ hu))
    rw [List.flatMap_cons, hf, List.cons_append, List.cons_append, List.nil_append,
      evens_cons, odds_cons, evens_cons, odds_cons, List.zip_cons_cons]
    exact List.Forall₂.cons (by simp [hf]) hrest

theorem zip_map_mem (P : ℚ → Row × Row → Prop) (g : Row × Row → ℚ)
    (ts : List ℚ) (ps : List (Row × Row)) (h2 : List.Forall₂ P ts ps) :
    ∀ pr ∈ ts.zip (ps.map g), ∃ u : Row × Row, P pr.1 u ∧ pr.2 = g u := by
  induction h2 with
  | nil => simp
  | cons hP hrest ih =>
    intro pr hpr
    rw [List.map_cons, List.zip_cons_cons] at hpr
    rcases List.mem_cons.1 hpr with rfl | htail
    · exact ⟨_, hP, rfl⟩
    · exact ih pr htail

theorem count_split_two_traj (df : List Row) (p q : Int) (hpq : p ≠ q)
    (htwo : ∀ r ∈ df, r.traj = p ∨ r.traj = q) (tv : ℚ) :
    (df.map Row.t).count tv =
      ((df.filter (fun r => r.traj = p)).map Row.t).count tv +
      ((df.filter (fun r => r.traj = q)).map Row.t).count tv := by
  have h2 : df.filter (fun r => !(decide (r.traj = p))) =
      df.filter (fun r => r.traj = q) := by
    apply List.filter_congr
    intro r hr
    rcases htwo r hr with h | h
    · simp [h, hpq]
    · simp [h, Ne.symm hpq]
  have hperm : (df.filter (fun r => r.traj = p) ++
      df.filter (fun r => r.traj = q)).Perm df := by
    rw [← h2]
    exact List.filter_append_perm _ df
  rw [← (hperm.map Row.t).count_eq tv, List.map_append, List.count_append]

theorem calculate_distances_two_traj (df : List Row) (p q : Int)
    (hpq : p ≠ q)
    (htwo : ∀ r ∈ df, r.traj = p ∨ r.traj = q)
    (hP : ((df.filter (fun r => r.traj = p)).map Row.t).Nodup)
    (hQ : ((df.filter (fun r => r.traj = q)).map Row.t).Nodup)
    (hsh : ∃ tv : ℚ, tv ∈ (df.filter (fun r => r.traj = p)).map Row.t ∧
                     tv ∈ (df.filter (fun r => r.traj = q)).map Row.t) :
    ∃ out : List (ℚ × ℝ),
      calculate_distances df = .ok out ∧
      (∀ tv : ℚ, tv ∈ out.map Prod.fst ↔
        (tv ∈ (df.filter (fun r => r.traj = p)).map Row.t ∧
         tv ∈ (df.filter (fun r => r.traj = q)).map Row.t)) ∧
      (out.map Prod.fst).Nodup ∧
      (∀ pr ∈ out, ∃ r1 r2 : Row, r1 ∈ df ∧ r2 ∈ df ∧ r1.traj ≠ r2.traj ∧
        r1.t = pr.1 ∧ r2.t = pr.1 ∧
        pr.2 = Real.sqrt ((((r1.x - r2.x) ^ 2 + (r1.y - r2.y) ^ 2) : ℚ) : ℝ)) := by
  have hPle : ∀ tv, ((df.filter (fun r => r.traj = p)).map Row.t).count tv ≤ 1 :=
    List.nodup_iff_count_le_one.1 hP
  have hQle : ∀ tv, ((df.filter (fun r => r.traj = q)).map Row.t).count tv ≤ 1 :=
    List.nodup_iff_count_le_one.1 hQ
  have hmem_iff : ∀ tv : ℚ, tv ∈ pairedTimes df ↔
      (tv ∈ (df.filter (fun r => r.traj = p)).map Row.t ∧
       tv ∈ (df.filter (fun r => r.traj = q)).map Row.t) := by
    intro tv
    rw [pairedTimes_mem_iff, count_split_two_traj df p q hpq htwo tv]
    have h1 := hPle tv
    have h2 := hQle tv
    constructor
    · intro h
      exact ⟨List.count_pos_iff.1 (by omega), List.count_pos_iff.1 (by omega)⟩
    · rintro ⟨hm1, hm2⟩
      have c1 := List.count_pos_iff.2 hm1
      have c2 := List.count_pos_iff.2 hm2
      omega
  have hnodup : (pairedTimes df).Nodup := by
    rw [List.nodup_iff_count_le_one]
    intro tv
    rw [pairedTimes_count, count_split_two_traj df p q hpq htwo tv]
    have h1 := hPle tv
    have h2 := hQle tv
    omega
  have hne : pairedTimes df ≠ [] := by
    rcases hsh with ⟨tv, h1, h2⟩
    exact List.ne_nil_of_mem ((hmem_iff tv).2 ⟨h1, h2⟩)
  have hcount2 : ∀ tv ∈ pairedTimes df,
      ((sortByT df).filter (fun r => r.t = tv)).length = 2 := by
    intro tv hm
    rw [filter_t_length_eq_count, times_count_eq,
      count_split_two_traj df p q hpq htwo tv]
    obtain ⟨h1, h2⟩ := (hmem_iff tv).1 hm
    have hp1 := hPle tv
    have hq1 := hQle tv
    have hc1 := List.count_pos_iff.2 h1
    have hc2 := List.count_pos_iff.2 h2
    omega
  have hall : ∀ tv ∈ pairedTimes df, ∃ a b,
      (sortByT df).filter (fun r => r.t = tv) = [a, b] :=
    fun tv hm => List.length_eq_two.1 (hcount2 tv hm)
  have hfa := paired_sel_forall2
    (fun tv => (sortByT df).filter (fun r => r.t = tv)) (pairedTimes df) hall
  have hsq : calculate_distances_sq df = .ok (pairedSq df) := by
    unfold calculate_distances_sq
    rw [if_neg hne, if_neg (not_not_intro hnodup)]
  have hlenp : (pairedTimes df).length ≤
      ((odds ((pairedTimes df).flatMap
          (fun tv => (sortByT df).filter (fun r => r.t = tv)))).zip
        (evens ((pairedTimes df).flatMap
          (fun tv => (sortByT df).filter (fun r => r.t = tv))))).length :=
    le_of_eq hfa.length_eq
  have hfstq : (pairedSq df).map Prod.fst = pairedTimes df := by
    unfold pairedSq
    simp only
    rw [List.map_fst_zip]
    rw [List.length_map]
    exact hlenp
  refine ⟨(pairedSq df).map (fun pr => (pr.1, Real.sqrt ((pr.2 : ℚ) : ℝ))), ?_, ?_, ?_, ?_⟩
  · unfold calculate_distances
    rw [hsq]
    rfl
  · intro tv
    have hm : ((pairedSq df).map
        (fun pr => (pr.1, Real.sqrt ((pr.2 : ℚ) : ℝ)))).map Prod.fst =
        pairedTimes df := by
      rw [List.map_map]
      have hcomp : (Prod.fst ∘ fun pr : ℚ × ℚ => (pr.1, Real.sqrt ((pr.2 : ℚ) : ℝ))) =
          Prod.fst := by
        funext pr
        rfl
      rw [hcomp, hfstq]
    rw [hm]
    exact hmem_iff tv
  · have hm : ((pairedSq df).map
        (fun pr => (pr.1, Real.sqrt ((pr.2 : ℚ) : ℝ)))).map Prod.fst =
        pairedTimes df := by
      rw [List.map_map]
      have hcomp : (Prod.fst ∘ fun pr : ℚ × ℚ => (pr.1, Real.sqrt ((pr.2 : ℚ) : ℝ))) =
          Prod.fst := by
        funext pr
        rfl
      rw [hcomp, hfstq]
    rw [hm]
    exact hnodup
  · intro pr hpr
    rcases List.mem_map.1 hpr with ⟨pr0, hpr0, rfl⟩
    have hzm := zip_map_mem
      (fun tv u => (sortByT df).filter (fun r => r.t = tv) = [u.2, u.1])
      (fun u => (u.1.x - u.2.x) ^ 2 + (u.1.y - u.2.y) ^ 2)
      (pairedTimes df) _ hfa pr0 (by
        have : pairedSq df = (pairedTimes df).zip
            ((((odds ((pairedTimes df).flatMap
                (fun tv => (sortByT df).filter (fun r => r.t = tv)))).zip
              (evens ((pairedTimes df).flatMap
                (fun tv => (sortByT df).filter (fun r => r.t = tv))))).map
              (fun u => (u.1.x - u.2.x) ^ 2 + (u.1.y - u.2.y) ^ 2))) := rfl
        rw [← this]
        exact hpr0)
    rcases hzm with ⟨u, hu, hg⟩
    have hu1 : u.1 ∈ (sortByT df).filter (fun r => r.t = pr0.1) := by
      rw [hu]
      simp
    have hu2 : u.2 ∈ (sortByT df).filter (fun r => r.t = pr0.1) := by
      rw [hu]
      simp
    have hmem1 : u.1 ∈ df := (sortByT_perm df).mem_iff.1 (List.mem_filter.1 hu1).1
    have hmem2 : u.2 ∈ df := (sortByT_perm df).mem_iff.1 (List.mem_filter.1 hu2).1
    have ht1 : u.1.t = pr0.1 := by simpa using (List.mem_filter.1 hu1).2
    have ht2 : u.2.t = pr0.1 := by simpa using (List.mem_filter.1 hu2).2
    have htraj : u.1.traj ≠ u.2.traj := by
      intro heq
      have hcnt1 : ∀ w : Int,
          ((df.filter (fun r => r.traj = w)).map Row.t).count pr0.1 =
          ((df.filter (fun r => r.traj = w)).filter (fun r => r.t = pr0.1)).length :=
        fun w => (filter_t_length_eq_count _ _).symm
      have hexch : ∀ w : Int,
          (((sortByT df).filter (fun r => r.t = pr0.1)).filter
            (fun r => r.traj = w)).length =
          ((df.filter (fun r => r.traj = w)).filter (fun r => r.t = pr0.1)).length := by
        intro w
        rw [List.filter_filter, List.filter_filter]
        have hcg : (sortByT df).filter
            (fun a => decide (a.traj = w) && decide (a.t = pr0.1)) =
            (sortByT df).filter (fun a => decide (a.t = pr0.1) && decide (a.traj = w)) := by
          apply List.filter_congr
          intro r _
          exact Bool.and_comm _ _
        rw [hcg]
        exact ((sortByT_perm df).filter _).length_eq
      have hlen2 : (((sortByT df).filter (fun r => r.t = pr0.1)).filter
          (fun r => r.traj = u.1.traj)).length = 2 := by
        rw [hu]
        simp [heq]
      rcases htwo u.1 hmem1 with hw | hw
      · have := hPle pr0.1
        rw [hcnt1 p, ← hexch p, ← hw, hlen2] at this
        omega
      · have := hQle pr0.1
        rw [hcnt1 q, ← hexch q, ← hw, hlen2] at this
        omega
    exact ⟨u.1, u.2, hmem1, hmem2, htraj, ht1, ht2, by rw [hg]⟩

/-- The pair-separation example table of the specification: entity A (traj 0)
at (0,0), (1,0), (2,0) and entity B (traj 1) at (0,3), (1,3), (2,4) over
t = 0, 1, 2 (rows interleaved in time order). -/
def exPair : List Row :=
  [⟨0,0,0,0⟩, ⟨1,0,0,3⟩, ⟨0,1,1,0⟩, ⟨1,1,1,3⟩, ⟨0,2,2,0⟩, ⟨1,2,2,4⟩]

theorem sortByT_exPair : sortByT exPair = exPair := by
  apply List.mergeSort_of_sorted
  norm_num [exPair, List.pairwise_cons]

theorem pairedTimes_exPair : pairedTimes exPair = [0, 1, 2] := by
  unfold pairedTimes
  rw [sortByT_exPair]
  norm_num [exPair, adjEq]

theorem pairedSq_exPair : pairedSq exPair = [(0, 9), (1, 9), (2, 16)] := by
  simp only [pairedSq]
  rw [pairedTimes_exPair, sortByT_exPair]
  norm_num [exPair, List.filter, evens, odds]

theorem calculate_distances_sq_exPair :
    calculate_distances_sq exPair = .ok [(0, 9), (1, 9), (2, 16)] := by
  unfold calculate_distances_sq
  rw [pairedTimes_exPair, pairedSq_exPair]
  norm_num
  intro h
  simp at h

theorem cdist_exPair :
    calculate_distances exPair = .ok [(0, 3), (1, 3), (2, 4)] := by
  unfold calculate_distances
  rw [calculate_distances_sq_exPair]
  have h9 : Real.sqrt (9 : ℝ) = 3 := by
    rw [show (9 : ℝ) = (3 : ℝ) ^ 2 by norm_num]
    exact Real.sqrt_sq (by norm_num)
  have h16 : Real.sqrt (16 : ℝ) = 4 := by
    rw [show (16 : ℝ) = (4 : ℝ) ^ 2 by norm_num]
    exact Real.sqrt_sq (by norm_num)
  simp [Except.map]
  norm_num [h9, h16]

/-- C4 (amended): for every table holding exactly two trajectories (each with
duplicate-free times) sharing at least one timestamp, the pair-separation
output is indexed (without duplicates) by exactly the timestamps present
in both trajectories, and each entry's `d` is the Euclidean distance
`sqrt((x1-x2)^2 + (y1-y2)^2)` of the two samples (one per trajectory) at
that timestamp; for the specification's example table the distances are
3, 3 and 4 (the samples at t = 2 are (2,0) and (2,4), so the
specification's sqrt(8) is incorrect). -/
theorem calculate_distances_pairing :
    (∀ (df : List Row) (p q : Int), p ≠ q →
      (∀ r ∈ df, r.traj = p ∨ r.traj = q) →
      ((df.filter (fun r => r.traj = p)).map Row.t).Nodup →
      ((df.filter (fun r => r.traj = q)).map Row.t).Nodup →
      (∃ tv : ℚ, tv ∈ (df.filter (fun r => r.traj = p)).map Row.t ∧
                 tv ∈ (df.filter (fun r => r.traj = q)).map Row.t) →
      ∃ out : List (ℚ × ℝ),
        calculate_distances df = .ok out ∧
        (∀ tv : ℚ, tv ∈ out.map Prod.fst ↔
          (tv ∈ (df.filter (fun r => r.traj = p)).map Row.t ∧
           tv ∈ (df.filter (fun r => r.traj = q)).map Row.t)) ∧
        (out.map Prod.fst).Nodup ∧
        (∀ pr ∈ out, ∃ r1 r2 : Row, r1 ∈ df ∧ r2 ∈ df ∧ r1.traj ≠ r2.traj ∧
          r1.t = pr.1 ∧ r2.t = pr.1 ∧
          pr.2 = Real.sqrt ((((r1.x - r2.x) ^ 2 + (r1.y - r2.y) ^ 2) : ℚ) : ℝ)))
    ∧ calculate_distances exPair = .ok [(0, 3), (1, 3), (2, 4)] :=
  ⟨fun df p q hpq htwo hP hQ hsh =>
    calculate_distances_two_traj df p q hpq htwo hP hQ hsh, cdist_exPair⟩

theorem calculate_distances_pairing_witness :
    ∃ out : List (ℚ × ℝ),
      calculate_distances exPair = .ok out ∧
      (∀ tv : ℚ, tv ∈ out.map Prod.fst ↔
        (tv ∈ (exPair.filter (fun r => r.traj = 0)).map Row.t ∧
         tv ∈ (exPair.filter (fun r => r.traj = 1)).map Row.t)) ∧
      (out.map Prod.fst).Nodup ∧
      (∀ pr ∈ out, ∃ r1 r2 : Row, r1 ∈ exPair ∧ r2 ∈ exPair ∧ r1.traj ≠ r2.traj ∧
        r1.t = pr.1 ∧ r2.t = pr.1 ∧
        pr.2 = Real.sqrt ((((r1.x - r2.x) ^ 2 + (r1.y - r2.y) ^ 2) : ℚ) : ℝ)) :=
  calculate_distances_pairing.1 exPair 0 1 (by norm_num)
    (by norm_num [exPair])
    (by norm_num [exPair, List.filter])
    (by norm_num [exPair, List.filter])
    ⟨0, by norm_num [exPair, List.filter], by norm_num [exPair, List.filter]⟩

/-- C4 counterexample: the specification asserts the third distance of the
example table is sqrt(8); the computation yields 4 (and sqrt(8) is not 4). -/
theorem calculate_distances_exPair_not_sqrt8 :
    calculate_distances exPair = .ok [(0, 3), (1, 3), (2, 4)] ∧
    Real.sqrt 8 ≠ (4 : ℝ) := by
  refine ⟨cdist_exPair, ?_⟩
  intro h
  have h8 : Real.sqrt 8 ^ 2 = 8 := Real.sq_sqrt (by norm_num)
  rw [h] at h8
  norm_num at h8

/-- numpy's `arctan2(y, x)`: the argument of the complex number `x + y i`,
in `(-pi, pi]` (and 0 at the origin, as numpy returns). -/
noncomputable def atan2 (y x : ℝ) : ℝ := Complex.arg ⟨x, y⟩

/-- numpy's `mod(a, b)`: `a - b * floor(a / b)`. -/
noncomputable def npMod (a b : ℝ) : ℝ := a - b * ⌊a / b⌋

/-- `rot[rot > np.pi] -= 2 * np.pi`: fold `[0, 2 pi)` into `(-pi, pi]`. -/
noncomputable def wrapAdj (r : ℝ) : ℝ := if r > Real.pi then r - 2 * Real.pi else r

/-- A row of the trajectory table after `calculate_velocity` annotated it with
the derived columns; a NaN entry is `none`. -/
structure KRow where
  traj : Int
  t : ℚ
  x : ℚ
  y : ℚ
  angle : Option ℝ
  speed : Option ℝ
  rotation : Option ℝ

/-- The position and time differences of each table row against the previous
table row (`df[['x','y']][1:].values - df[['x','y']][:-1].values` and
`df.t[1:].values - df.t[:-1].values`), as `(dx, dy, dt)` triples.  Note
that, exactly as in the source, the differencing runs over the whole
frame and does not stop at trajectory boundaries. -/
def diffs (df : List Row) : List (ℚ × ℚ × ℚ) :=
  (df.zip df.tail).map (fun pr => (pr.2.x - pr.1.x, pr.2.y - pr.1.y, pr.2.t - pr.1.t))

/-- The `angle` column: `np.insert(np.arctan2(dy, dx), 0, np.nan)`. -/
noncomputable def angleCol (df : List Row) : List (Option ℝ) :=
  none :: (diffs df).map (fun v => some (atan2 ((v.2.1 : ℚ) : ℝ) ((v.1 : ℚ) : ℝ)))

/-- The `speed` column:
`np.insert(np.sqrt(dx ** 2 + dy ** 2) / t_diff, 0, np.nan)`. -/
noncomputable def speedCol (df : List Row) : List (Option ℝ) :=
  none :: (diffs df).map (fun v =>
    some (Real.sqrt (((v.1 ^ 2 + v.2.1 ^ 2 : ℚ)) : ℝ) / ((v.2.2 : ℚ) : ℝ)))

/-- The `rotation` column: `rot = np.mod(df.angle[1:] - df.angle[:-1], 2 pi)`,
`rot[rot > pi] -= 2 pi`, `np.insert(rot / t_diff, 0, np.nan)`; a NaN in
either angle operand propagates to NaN (numpy: `mod(nan, b) = nan`,
`nan > pi` is false, `nan / dt = nan`). -/
noncomputable def rotCol (df : List Row) : List (Option ℝ) :=
  none :: (((angleCol df).zip (angleCol df).tail).zip
      ((diffs df).map (fun v => v.2.2))).map
    (fun pr => match pr.1.1, pr.1.2 with
      | some a0, some a1 =>
          some (wrapAdj (npMod (a1 - a0) (2 * Real.pi)) / ((pr.2 : ℚ) : ℝ))
      | _, _ => none)

/-- `df['angle'] = ...; df['speed'] = ...; df['rotation'] = ...`: assemble the
annotated rows from the base rows and the three derived columns. -/
def zipKRows : List Row → List (Option ℝ) → List (Option ℝ) → List (Option ℝ) → List KRow
  | r :: rs, a :: al, s :: sl, q :: ql =>
      ⟨r.traj, r.t, r.x, r.y, a, s, q⟩ :: zipKRows rs al sl ql
  | _, _, _, _ => []

/-- Shallow embedding of `calculate_velocity` (src/post_process.py:248-278).
The in-place mutation (`in_place=True`, `return None`) is modelled by
returning the annotated table.  On an empty frame the assignment of the
length-1 inserted array to a 0-row column raises (pandas length
mismatch), modelled as `none`.  The final repair loop
`for i in df.index.unique(): df.loc[i].iloc[0][['angle','speed','rotation']] = np.nan`
has two behaviours, neither of which writes NaN into `df`: for a label
with two or more rows, `df.loc[i]` selects by take and returns a copy,
so the chained assignment writes into a temporary and never modifies
`df` (a no-op); for a label with exactly one row, `df.loc[i]`
dimension-reduces to a Series, `.iloc[0]` is a scalar float, and the
item assignment raises TypeError — the call then terminates with the
exception (the three column assignments made before the loop are not
observable through the return value and the raise is modelled as
`none`). -/
noncomputable def calculate_velocity (df : List Row) : Option (List KRow) :=
  if df = [] then none
  else if hasSingleton df then none
  else some (zipKRows df (angleCol df) (speedCol df) (rotCol df))

theorem hasSingleton_true_iff (df : List Row) :
    hasSingleton df = true ↔
      ∃ i ∈ df.map Row.traj, (df.filter (fun r => r.traj = i)).length = 1 := by
  unfold hasSingleton
  rw [List.any_eq_true]
  constructor
  · rintro ⟨i, hi, hp⟩
    exact ⟨i, (mem_uniqueIdx _ _).1 hi, by simpa using hp⟩
  · rintro ⟨i, hi, hp⟩
    exact ⟨i, (mem_uniqueIdx _ _).2 hi, by simpa using hp⟩

theorem calculate_velocity_some (df : List Row) (out : List KRow)
    (hvel : calculate_velocity df = some out) :
    df ≠ [] ∧ out = zipKRows df (angleCol df) (speedCol df) (rotCol df) := by
  rw [calculate_velocity] at hvel
  by_cases h : df = []
  · rw [if_pos h] at hvel
    simp at hvel
  · rw [if_neg h] at hvel
    by_cases hs : hasSingleton df = true
    · rw [if_pos hs] at hvel
      simp at hvel
    · rw [if_neg hs] at hvel
      injection hvel with hout
      exact ⟨h, hout.symm⟩

theorem diffs_length (df : List Row) : (diffs df).length = df.length - 1 := by
  simp [diffs, List.length_zip, List.length_tail]

theorem angleCol_length (df : List Row) (h : df ≠ []) :
    (angleCol df).length = df.length := by
  have hpos : 0 < df.length := List.length_pos.2 h
  simp [angleCol, diffs_length]
  omega

theorem speedCol_length (df : List Row) (h : df ≠ []) :
    (speedCol df).length = df.length := by
  have hpos : 0 < df.length := List.length_pos.2 h
  simp [speedCol, diffs_length]
  omega

theorem rotCol_length (df : List Row) (h : df ≠ []) :
    (rotCol df).length = df.length := by
  have hpos : 0 < df.length := List.length_pos.2 h
  simp [rotCol, List.length_zip, List.length_tail, angleCol_length df h, diffs_length]
  omega

theorem zipKRows_spec (df : List Row) :
    ∀ (al sl ql : List (Option ℝ)),
    al.length = df.length → sl.length = df.length → ql.length = df.length →
    (zipKRows df al sl ql).map KRow.traj = df.map Row.traj ∧
    (zipKRows df al sl ql).map KRow.t = df.map Row.t ∧
    (zipKRows df al sl ql).map KRow.x = df.map Row.x ∧
    (zipKRows df al sl ql).map KRow.y = df.map Row.y ∧
    (zipKRows df al sl ql).map KRow.angle = al ∧
    (zipKRows df al sl ql).map KRow.speed = sl ∧
    (zipKRows df al sl ql).map KRow.rotation = ql ∧
    (zipKRows df al sl ql).length = df.length := by
  induction df with
  | nil =>
    intro al sl ql ha hs hq
    rw [List.length_nil] at ha hs hq
    rw [List.length_eq_zero.1 ha, List.length_eq_zero.1 hs, List.length_eq_zero.1 hq]
    simp [zipKRows]
  | cons r rs ih =>
    intro al sl ql ha hs hq
    cases al with
    | nil => simp at ha
    | cons a al2 =>
      cases sl with
      | nil => simp at hs
      | cons s sl2 =>
        cases ql with
        | nil => simp at hq
        | cons q ql2 =>
          simp only [List.length_cons, Nat.succ.injEq] at ha hs hq
          obtain ⟨h1, h2, h3, h4, h5, h6, h7, h8⟩ := ih al2 sl2 ql2 ha hs hq
          simp [zipKRows, h1, h2, h3, h4, h5, h6, h7, h8]

/-- C10 (amended): whenever `calculate_velocity` returns — equivalently,
exactly when the table is nonempty and no trajectory of it has exactly
one row, the inputs on which the NaN repair loop does not raise — it
changes the table only by adding the three derived columns: the `traj`
index and the `t`, `x`, `y` values of every row are unchanged and no row
is added or removed. -/
theorem calculate_velocity_frame :
    (∀ (df : List Row) (out : List KRow), calculate_velocity df = some out →
      out.map KRow.traj = df.map Row.traj ∧
      out.map KRow.t = df.map Row.t ∧
      out.map KRow.x = df.map Row.x ∧
      out.map KRow.y = df.map Row.y ∧
      out.length = df.length)
    ∧ (∀ df : List Row,
        (∃ out : List KRow, calculate_velocity df = some out) ↔
          (df ≠ [] ∧ ∀ i ∈ df.map Row.traj,
            (df.filter (fun r => r.traj = i)).length ≠ 1)) := by
  constructor
  · intro df out hvel
    obtain ⟨h, hout⟩ := calculate_velocity_some df out hvel
    subst hout
    obtain ⟨h1, h2, h3, h4, -, -, -, h8⟩ := zipKRows_spec df
      (angleCol df) (speedCol df) (rotCol df)
      (angleCol_length df h) (speedCol_length df h) (rotCol_length df h)
    exact ⟨h1, h2, h3, h4, h8⟩
  · intro df
    constructor
    · rintro ⟨out, hout⟩
      rw [calculate_velocity] at hout
      by_cases h : df = []
      · rw [if_pos h] at hout
        simp at hout
      · rw [if_neg h] at hout
        by_cases hs : hasSingleton df = true
        · rw [if_pos hs] at hout
          simp at hout
        · rw [if_neg hs] at hout
          refine ⟨h, ?_⟩
          intro i hi hlen
          exact hs ((hasSingleton_true_iff df).2 ⟨i, hi, hlen⟩)
    · rintro ⟨h, hall⟩
      have hs : ¬ hasSingleton df = true := by
        intro htrue
        rcases (hasSingleton_true_iff df).1 htrue with ⟨i, hi, hlen⟩
        exact hall i hi hlen
      exact ⟨zipKRows df (angleCol df) (speedCol df) (rotCol df),
        by rw [calculate_velocity, if_neg h, if_neg hs]⟩

/-- The kinematics example table of the specification: one trajectory with
samples (t=0, x=0, y=0), (t=1, x=1, y=0), (t=2, x=1, y=1). -/
def exV : List Row := [⟨0,0,0,0⟩, ⟨0,1,1,0⟩, ⟨0,2,1,1⟩]

theorem calculate_velocity_frame_witness :
    (zipKRows exV (angleCol exV) (speedCol exV) (rotCol exV)).map KRow.traj =
      exV.map Row.traj ∧
    (zipKRows exV (angleCol exV) (speedCol exV) (rotCol exV)).map KRow.t =
      exV.map Row.t ∧
    (zipKRows exV (angleCol exV) (speedCol exV) (rotCol exV)).map KRow.x =
      exV.map Row.x ∧
    (zipKRows exV (angleCol exV) (speedCol exV) (rotCol exV)).map KRow.y =
      exV.map Row.y ∧
    (zipKRows exV (angleCol exV) (speedCol exV) (rotCol exV)).length = exV.length :=
  calculate_velocity_frame.1 exV _ (by
    rw [calculate_velocity, if_neg (by simp [exV]),
      if_neg (by norm_num [hasSingleton, uniqueIdx, exV, List.filter])])

/-- A table containing a single-sample trajectory (trajectory 4 has one
row), on which the NaN repair loop of the source raises TypeError. -/
def exSingle : List Row := [⟨3,0,1,1⟩, ⟨3,1,2,1⟩, ⟨4,5,4,4⟩]

/-- C10 counterexample: on a nonempty table containing a single-sample
trajectory the kinematics call does not return: in the repair loop
`df.loc[4]` dimension-reduces to a Series, `.iloc[0]` is a scalar float,
and the item assignment raises TypeError (modelled as `none`), so the
claimed contract — returning no value having added the three columns —
fails for this TrajectoryTable. -/
theorem calculate_velocity_single_row_crash :
    calculate_velocity exSingle = none ∧ exSingle ≠ [] := by
  constructor
  · have hs : hasSingleton exSingle = true := by
      norm_num [hasSingleton, uniqueIdx, exSingle, List.filter]
    rw [calculate_velocity, if_neg (by simp [exSingle]), if_pos hs]
  · simp [exSingle]

theorem getElem?_zip_pair {α β : Type} (l : List α) (m : List β) (n : Nat) :
    (l.zip m)[n]? = l[n]?.bind (fun a => m[n]?.map (fun b => (a, b))) := by
  induction l generalizing m n with
  | nil => simp
  | cons a l2 ih =>
    cases m with
    | nil => simp
    | cons b m2 =>
      cases n with
      | zero => simp
      | succ k => simp [List.zip_cons_cons, List.getElem?_cons_succ, ih]

theorem diffs_getElem (df : List Row) (j : Nat) (h1 : 1 ≤ j)
    (rp rc : Row) (hp : df[j - 1]? = some rp) (hc : df[j]? = some rc) :
    (diffs df)[j - 1]? = some (rc.x - rp.x, rc.y - rp.y, rc.t - rp.t) := by
  have hj : (j - 1) + 1 = j := by omega
  rw [diffs, List.getElem?_map, getElem?_zip_pair, hp, List.getElem?_tail, hj, hc]
  rfl

theorem angleCol_getElem (df : List Row) (j : Nat) (h1 : 1 ≤ j)
    (rp rc : Row) (hp : df[j - 1]? = some rp) (hc : df[j]? = some rc) :
    (angleCol df)[j]? = some (some (atan2 ((rc.y - rp.y : ℚ) : ℝ)
      ((rc.x - rp.x : ℚ) : ℝ))) := by
  have hj : j = (j - 1) + 1 := by omega
  rw [angleCol, hj, List.getElem?_cons_succ, List.getElem?_map,
    diffs_getElem df j h1 rp rc hp hc]
  rfl

theorem speedCol_getElem (df : List Row) (j : Nat) (h1 : 1 ≤ j)
    (rp rc : Row) (hp : df[j - 1]? = some rp) (hc : df[j]? = some rc) :
    (speedCol df)[j]? = some (some (Real.sqrt
      ((((rc.x - rp.x) ^ 2 + (rc.y - rp.y) ^ 2 : ℚ)) : ℝ) /
      ((rc.t - rp.t : ℚ) : ℝ))) := by
  have hj : j = (j - 1) + 1 := by omega
  rw [speedCol, hj, List.getElem?_cons_succ, List.getElem?_map,
    diffs_getElem df j h1 rp rc hp hc]
  rfl

theorem rotCol_getElem (df : List Row) (j : Nat) (h1 : 1 ≤ j)
    (pa : Option ℝ) (a1 : ℝ) (v : ℚ × ℚ × ℚ)
    (hpa : (angleCol df)[j - 1]? = some pa)
    (ha1 : (angleCol df)[j]? = some (some a1))
    (hd : (diffs df)[j - 1]? = some v) :
    (rotCol df)[j]? = some (pa.map (fun a0 =>
      wrapAdj (npMod (a1 - a0) (2 * Real.pi)) / ((v.2.2 : ℚ) : ℝ))) := by
  have hj : j = (j - 1) + 1 := by omega
  rw [rotCol, hj, List.getElem?_cons_succ, List.getElem?_map,
    getElem?_zip_pair, getElem?_zip_pair, hpa, List.getElem?_tail, ← hj, ha1,
    List.getElem?_map, hd]
  cases pa with
  | none => rfl
  | some a0 => rfl

theorem atan2_zero_one : atan2 0 1 = 0 := by
  unfold atan2
  have h : (⟨1, 0⟩ : ℂ) = 1 := by
    apply Complex.ext <;> simp
  rw [h, Complex.arg_one]

theorem atan2_one_zero : atan2 1 0 = Real.pi / 2 := by
  unfold atan2
  have h : (⟨0, 1⟩ : ℂ) = Complex.I := by
    apply Complex.ext <;> simp
  rw [h, Complex.arg_I]

theorem npMod_half_pi : npMod (Real.pi / 2) (2 * Real.pi) = Real.pi / 2 := by
  unfold npMod
  have hd : Real.pi / 2 / (2 * Real.pi) = 1 / 4 := by
    rw [div_div]
    rw [show (2 : ℝ) * (2 * Real.pi) = Real.pi * 4 by ring]
    rw [div_eq_div_iff (by positivity) (by norm_num)]
    ring
  rw [hd]
  have hf : ⌊(1 / 4 : ℝ)⌋ = 0 := by
    rw [Int.floor_eq_zero_iff]
    constructor <;> norm_num
  rw [hf]
  simp

theorem wrapAdj_half_pi : wrapAdj (Real.pi / 2) = Real.pi / 2 := by
  unfold wrapAdj
  rw [if_neg]
  have := Real.pi_pos
  intro h
  simp only [gt_iff_lt] at h
  linarith

theorem diffs_exV : diffs exV = [(1, 0, 1), (0, 1, 1)] := by
  norm_num [diffs, exV]

theorem angleCol_exV : angleCol exV = [none, some 0, some (Real.pi / 2)] := by
  rw [angleCol, diffs_exV]
  norm_num [atan2_zero_one, atan2_one_zero]

theorem speedCol_exV : speedCol exV = [none, some 1, some 1] := by
  rw [speedCol, diffs_exV]
  norm_num [Real.sqrt_one]

theorem rotCol_exV : rotCol exV = [none, none, some (Real.pi / 2)] := by
  rw [rotCol, angleCol_exV, diffs_exV]
  have hsub : (Real.pi / 2 - 0 : ℝ) = Real.pi / 2 := by ring
  norm_num [List.zip_cons_cons, hsub, npMod_half_pi, wrapAdj_half_pi]

theorem velocity_exV : calculate_velocity exV = some
    [⟨0,0,0,0, none, none, none⟩,
     ⟨0,1,1,0, some 0, some 1, none⟩,
     ⟨0,2,1,1, some (Real.pi / 2), some 1, some (Real.pi / 2)⟩] := by
  rw [calculate_velocity, if_neg (by simp [exV]),
    if_neg (by norm_num [hasSingleton, uniqueIdx, exV, List.filter]),
    angleCol_exV, speedCol_exV, rotCol_exV]
  simp [exV, zipKRows]

/-- C8: within a trajectory block `B` of the table (rows of one trajectory,
contiguous as produced by the pipeline), for every sample index `i >= 1`
the kinematics calculation yields
`angle_i = atan2(dy, dx)`, `speed_i = sqrt(dx^2 + dy^2) / dt`, and
`rotation_i = wrap(angle_i - angle_(i-1)) / dt` where `angle_(i-1)` is
the table's angle at the previous sample (an undefined previous angle
propagates to an undefined rotation) and `wrap` is the numpy
`mod`-into-`[0, 2 pi)` followed by the `> pi` correction into
`(-pi, pi]`; in particular for samples (0,0,0), (1,1,0), (2,1,1) sample 2
has angle 0 and speed 1, sample 3 has angle pi/2, speed 1 and rotation
pi/2, and sample 1 has all three fields undefined. -/
theorem calculate_velocity_kinematics :
    (∀ (A B C : List Row) (out : List KRow) (i : Nat),
      calculate_velocity (A ++ (B ++ C)) = some out →
      1 ≤ i → ∀ (hi : i < B.length) (hi' : i - 1 < B.length),
      (out.map KRow.angle)[A.length + i]? =
        some (some (atan2
          (((B.get ⟨i, hi⟩).y - (B.get ⟨i - 1, hi'⟩).y : ℚ) : ℝ)
          (((B.get ⟨i, hi⟩).x - (B.get ⟨i - 1, hi'⟩).x : ℚ) : ℝ))) ∧
      (out.map KRow.speed)[A.length + i]? =
        some (some (Real.sqrt
          ((((B.get ⟨i, hi⟩).x - (B.get ⟨i - 1, hi'⟩).x) ^ 2 +
            ((B.get ⟨i, hi⟩).y - (B.get ⟨i - 1, hi'⟩).y) ^ 2 : ℚ) : ℝ) /
          (((B.get ⟨i, hi⟩).t - (B.get ⟨i - 1, hi'⟩).t : ℚ) : ℝ))) ∧
      (∀ pa : Option ℝ, (out.map KRow.angle)[A.length + i - 1]? = some pa →
        (out.map KRow.rotation)[A.length + i]? =
          some (pa.map (fun a0 =>
            wrapAdj (npMod (atan2
              (((B.get ⟨i, hi⟩).y - (B.get ⟨i - 1, hi'⟩).y : ℚ) : ℝ)
              (((B.get ⟨i, hi⟩).x - (B.get ⟨i - 1, hi'⟩).x : ℚ) : ℝ) - a0)
              (2 * Real.pi)) /
            (((B.get ⟨i, hi⟩).t - (B.get ⟨i - 1, hi'⟩).t : ℚ) : ℝ)))))
    ∧ calculate_velocity exV = some
        [⟨0,0,0,0, none, none, none⟩,
         ⟨0,1,1,0, some 0, some 1, none⟩,
         ⟨0,2,1,1, some (Real.pi / 2), some 1, some (Real.pi / 2)⟩] := by
  constructor
  · intro A B C out i hvel h1 hi hi'
    obtain ⟨hne, hout⟩ := calculate_velocity_some _ _ hvel
    subst hout
    obtain ⟨-, -, -, -, h5, h6, h7, -⟩ := zipKRows_spec (A ++ (B ++ C))
      (angleCol (A ++ (B ++ C))) (speedCol (A ++ (B ++ C))) (rotCol (A ++ (B ++ C)))
      (angleCol_length _ hne) (speedCol_length _ hne) (rotCol_length _ hne)
    rw [h5, h6, h7]
    have hcur : (A ++ (B ++ C))[A.length + i]? = some (B.get ⟨i, hi⟩) := by
      rw [List.getElem?_append_right (by omega),
        show A.length + i - A.length = i from by omega,
        List.getElem?_append, if_pos hi, List.getElem?_eq_getElem hi]
      simp
    have hprev : (A ++ (B ++ C))[A.length + i - 1]? = some (B.get ⟨i - 1, hi'⟩) := by
      rw [show A.length + i - 1 = A.length + (i - 1) from by omega,
        List.getElem?_append_right (by omega),
        show A.length + (i - 1) - A.length = i - 1 from by omega,
        List.getElem?_append, if_pos hi', List.getElem?_eq_getElem hi']
      simp
    refine ⟨angleCol_getElem _ _ (by omega) _ _ hprev hcur,
      speedCol_getElem _ _ (by omega) _ _ hprev hcur, ?_⟩
    intro pa hpa
    exact rotCol_getElem _ _ (by omega) pa _ _ hpa
      (angleCol_getElem _ _ (by omega) _ _ hprev hcur)
      (diffs_getElem _ _ (by omega) _ _ hprev hcur)
  · exact velocity_exV

theorem calculate_velocity_kinematics_witness :
    ((([⟨0,0,0,0, none, none, none⟩,
        ⟨0,1,1,0, some 0, some 1, none⟩,
        ⟨0,2,1,1, some (Real.pi / 2), some 1, some (Real.pi / 2)⟩] :
          List KRow).map KRow.angle)[1]? =
      some (some (atan2
        (((exV.get ⟨1, by norm_num [exV]⟩).y -
          (exV.get ⟨0, by norm_num [exV]⟩).y : ℚ) : ℝ)
        (((exV.get ⟨1, by norm_num [exV]⟩).x -
          (exV.get ⟨0, by norm_num [exV]⟩).x : ℚ) : ℝ)))) ∧
    ((([⟨0,0,0,0, none, none, none⟩,
        ⟨0,1,1,0, some 0, some 1, none⟩,
        ⟨0,2,1,1, some (Real.pi / 2), some 1, some (Real.pi / 2)⟩] :
          List KRow).map KRow.speed)[1]? =
      some (some (Real.sqrt
        ((((exV.get ⟨1, by norm_num [exV]⟩).x -
           (exV.get ⟨0, by norm_num [exV]⟩).x) ^ 2 +
          ((exV.get ⟨1, by norm_num [exV]⟩).y -
           (exV.get ⟨0, by norm_num [exV]⟩).y) ^ 2 : ℚ) : ℝ) /
        (((exV.get ⟨1, by norm_num [exV]⟩).t -
          (exV.get ⟨0, by norm_num [exV]⟩).t : ℚ) : ℝ)))) ∧
    (∀ pa : Option ℝ,
      ((([⟨0,0,0,0, none, none, none⟩,
          ⟨0,1,1,0, some 0, some 1, none⟩,
          ⟨0,2,1,1, some (Real.pi / 2), some 1, some (Real.pi / 2)⟩] :
            List KRow).map KRow.angle)[0]? = some pa) →
      ((([⟨0,0,0,0, none, none, none⟩,
          ⟨0,1,1,0, some 0, some 1, none⟩,
          ⟨0,2,1,1, some (Real.pi / 2), some 1, some (Real.pi / 2)⟩] :
            List KRow).map KRow.rotation)[1]? =
        some (pa.map (fun a0 =>
          wrapAdj (npMod (atan2
            (((exV.get ⟨1, by norm_num [exV]⟩).y -
              (exV.get ⟨0, by norm_num [exV]⟩).y : ℚ) : ℝ)
            (((exV.get ⟨1, by norm_num [exV]⟩).x -
              (exV.get ⟨0, by norm_num [exV]⟩).x : ℚ) : ℝ) - a0)
            (2 * Real.pi)) /
          (((exV.get ⟨1, by norm_num [exV]⟩).t -
            (exV.get ⟨0, by norm_num [exV]⟩).t : ℚ) : ℝ))))) :=
  calculate_velocity_kinematics.1 [] exV [] _ 1
    (by simpa using velocity_exV) (by norm_num)
    (by norm_num [exV]) (by norm_num [exV])

/-- A two-trajectory table on which the cross-boundary differencing of
`calculate_velocity` is visible: trajectory 0 with rows (t=0, (1,1)),
(t=1, (2,1)) and trajectory 1 with rows (t=2, (5,5)), (t=3, (6,5)). -/
def exCross : List Row := [⟨0,0,1,1⟩, ⟨0,1,2,1⟩, ⟨1,2,5,5⟩, ⟨1,3,6,5⟩]

theorem diffs_exCross : diffs exCross = [(1, 0, 1), (3, 4, 1), (1, 0, 1)] := by
  norm_num [diffs, exCross]

/-- C1 (code evaluated at the failing input): the first sample of the second
trajectory of `exCross` (row index 2) receives the defined speed 5 —
`sqrt((5-2)^2 + (5-1)^2) / (2-1)` differenced across the trajectory
boundary — instead of the undefined sentinel: the per-trajectory NaN
repair loop of the source is chained indexing into a copy and never
writes back. -/
theorem calculate_velocity_cross_boundary_bug :
    ((calculate_velocity exCross).getD []).map KRow.speed =
      [none, some 1, some 5, some 1] := by
  have hne : exCross ≠ [] := by simp [exCross]
  have hs : ¬ hasSingleton exCross = true := by
    norm_num [hasSingleton, uniqueIdx, exCross, List.filter]
  rw [calculate_velocity, if_neg hne, if_neg hs, Option.getD_some]
  obtain ⟨-, -, -, -, -, h6, -, -⟩ := zipKRows_spec exCross
    (angleCol exCross) (speedCol exCross) (rotCol exCross)
    (angleCol_length _ hne) (speedCol_length _ hne) (rotCol_length _ hne)
  rw [h6, speedCol, diffs_exCross]
  have h25 : Real.sqrt 25 = 5 := by
    rw [show (25 : ℝ) = 5 ^ 2 by norm_num]
    exact Real.sqrt_sq (by norm_num)
  norm_num [Real.sqrt_one, h25]

/-- One batch group as consumed by the loop body of `process_trajectories`:
the expected entity count `cond_beenum[c]` of its condition and its
ordered recordings (the catalog lookup, file discovery and persistence
paths are external collaborators and abstracted away). -/
structure RecGroup where
  beenum : Nat
  recs : List Recording

/-- The uncaught Python exceptions a group's processing can raise, one per
failing pipeline step. -/
inductive ProcErr where
  | combineFailure : ProcErr
  | invalidConfiguration : ProcErr
  | emptyConcat : ProcErr
  | malformedTrimFrame : ProcErr
  | insufficientPairingData : ProcErr
  | duplicatePairingData : ProcErr
  | emptyTable : ProcErr
  deriving DecidableEq, Repr

/-- What one iteration of the batch loop persists for a group: the annotated
trajectory table and, when the group expects two entities, the
pair-distance table. -/
structure GroupOut where
  traj_table : List KRow
  distance_table : Option (List (ℚ × ℝ))

/-- The body of the batch loop of `process_trajectories`
(src/post_process.py:331-345) for one group:
`combine_traj_files` then `filter_traj`, then (when `cond_beenum[c] == 2`)
`calculate_distances` and its persistence, then `calculate_velocity` and
the trajectory table's persistence.  Each step's uncaught exception is
surfaced as the corresponding error. -/
noncomputable def process_group (min_length trim_start_frames trim_end_frames : Nat)
    (g : RecGroup) : Except ProcErr GroupOut :=
  match combine_traj_files g.recs with
  | none => .error .combineFailure
  | some df0 =>
    match filter_traj df0 min_length trim_start_frames trim_end_frames with
    | .error .invalidConfiguration => .error .invalidConfiguration
    | .error .emptyConcat => .error .emptyConcat
    | .error .malformedTrimFrame => .error .malformedTrimFrame
    | .ok df =>
      if g.beenum = 2 then
        match calculate_distances df with
        | .error .noPairedTimestamps => .error .insufficientPairingData
        | .error .duplicatePairedTimestamps => .error .duplicatePairingData
        | .ok ddf =>
          match calculate_velocity df with
          | none => .error .emptyTable
          | some vel => .ok ⟨vel, some ddf⟩
      else
        match calculate_velocity df with
        | none => .error .emptyTable
        | some vel => .ok ⟨vel, none⟩

/-- Shallow embedding of the batch orchestration of `process_trajectories`
(src/post_process.py:309-348): the groups are processed strictly in
order with no try/except around the loop body, so the first group whose
processing raises aborts the whole run — later groups are not attempted
and the function terminates with that exception. -/
noncomputable def process_trajectories (min_length trim_start_frames trim_end_frames : Nat) :
    List RecGroup → Except ProcErr (List GroupOut)
  | [] => .ok []
  | g :: gs =>
    match process_group min_length trim_start_frames trim_end_frames g with
    | .error e => .error e
    | .ok o =>
      (process_trajectories min_length trim_start_frames trim_end_frames gs).map
        (fun rest => o :: rest)

/-- C9 (amended): group processing is not isolated — when a group fails, the
batch aborts with that group's error and no subsequent group is
attempted (the error result carries no output for any group). -/
theorem process_trajectories_abort_on_error (m ts te : Nat) (g : RecGroup)
    (gs : List RecGroup) (e : ProcErr)
    (h : process_group m ts te g = .error e) :
    process_trajectories m ts te (g :: gs) = .error e := by
  unfold process_trajectories
  rw [h]

/-- The four-row two-trajectory table used by the orchestration examples:
trajectory 0 at t = 0, 1 and trajectory 1 at t = 10, 11 (no shared
timestamp). -/
def rows4 : List Row := [⟨0,0,1,1⟩, ⟨0,1,2,1⟩, ⟨1,10,5,5⟩, ⟨1,11,6,5⟩]

/-- A group expecting two entities whose trajectories share no timestamp:
its pair-distance step fails. -/
def badGroup : RecGroup := ⟨2, [⟨0, rows4⟩]⟩

/-- The same recordings in a group expecting one entity: it processes
successfully. -/
def goodGroup : RecGroup := ⟨1, [⟨0, rows4⟩]⟩

theorem combine_rows4 : combine_traj_files [⟨0, rows4⟩] = some rows4 := by
  norm_num [combine_traj_files, combine_aux, adjustRec, rows4, List.max?]

theorem filter_rows4 : filter_traj rows4 2 0 0 = .ok rows4 := by
  norm_num [filter_traj, rows4, uniqueIdx, pandasLen, List.filter]

theorem sortByT_rows4 : sortByT rows4 = rows4 := by
  apply List.mergeSort_of_sorted
  norm_num [rows4, List.pairwise_cons]

theorem distances_rows4 :
    calculate_distances rows4 = .error .noPairedTimestamps := by
  have hp : pairedTimes rows4 = [] := by
    unfold pairedTimes
    rw [sortByT_rows4]
    norm_num [rows4, adjEq]
  unfold calculate_distances calculate_distances_sq
  rw [hp]
  norm_num [Except.map]

theorem process_group_badGroup :
    process_group 2 0 0 badGroup = .error .insufficientPairingData := by
  unfold process_group
  simp only [badGroup, combine_rows4, filter_rows4, distances_rows4]
  norm_num

theorem process_group_goodGroup_isOk :
    (process_group 2 0 0 goodGroup).isOk = true := by
  unfold process_group
  simp only [goodGroup, combine_rows4, filter_rows4]
  have hvel : calculate_velocity rows4 =
      some (zipKRows rows4 (angleCol rows4) (speedCol rows4) (rotCol rows4)) := by
    rw [calculate_velocity, if_neg (by simp [rows4]),
      if_neg (by norm_num [hasSingleton, uniqueIdx, rows4, List.filter])]
  simp only [hvel]
  norm_num [Except.isOk, Except.toBool]

/-- C9 counterexample: a batch of a failing group followed by a processable
group aborts with the first group's error — the second group, although
processable on its own, is never attempted and the run yields no
outputs. -/
theorem process_trajectories_no_isolation :
    process_trajectories 2 0 0 [badGroup, goodGroup] =
      .error .insufficientPairingData ∧
    (process_group 2 0 0 goodGroup).isOk = true := by
  refine ⟨?_, process_group_goodGroup_isOk⟩
  unfold process_trajectories
  rw [process_group_badGroup]

theorem process_trajectories_abort_on_error_witness :
    process_trajectories 2 0 0 (badGroup :: [goodGroup]) =
      .error .insufficientPairingData :=
  process_trajectories_abort_on_error 2 0 0 badGroup [goodGroup]
    .insufficientPairingData process_group_badGroup
